import Mathlib

/-!
# Verification of go-trustless-utils against its specification

A shallow embedding of the core of the `go-trustless-utils` library
(IPFS Trustless Gateway utilities): the request model (`ByteRange`,
`DagScope`, `Request`), selector synthesis, Etag synthesis (xxhash64),
HTTP content negotiation (`ContentType`, `CheckFormat`), and the CAR
verification / traversal driver (`readNextBlock`, the duplicate-handling
read opener, `VerifyBlockStream` / `VerifyCar`, `CheckPath`, and the
error-capturing reader).

Go strings are modelled as Lean `String`s (byte-level operations work on
`List Char`, which agrees with Go's byte strings on the ASCII data this
library manipulates); Go's `int64` is modelled as `Int` with explicit
two's-complement wrapping where overflow can occur; Go's `(T, error)`
returns are modelled as `Except`/`Option`; nil pointers are `Option`.

The repository snapshot contains two generations of some files; where the
generations differ the embedding follows the generation pinned by the
repository's own test fixtures (`types_test.go`, which exercises
`Etag(order)` with the `W/` prefix and the negative-`to` passthrough in
`Request.Selector`, and the `CheckFormat` returning a slice of content
types).
-/

namespace TrustlessUtils

/-- A CID, treated as a primitive: a codec tag, the multihash bytes, and
its canonical string form (the string form is an opaque attribute here,
used by `Etag` and `UrlPath`; equality is equality of all components as
for Go's value equality on `cid.Cid`). -/
structure Cid where
  codec : Nat
  hash : List Nat
  str : String
deriving DecidableEq

/-- A block: a CID together with its raw bytes. -/
structure Block where
  cid : Cid
  data : List Nat
deriving DecidableEq

/-- `DagScope` is a string type in Go (`type DagScope string`). -/
abbrev DagScope := String

def DagScopeAll : DagScope := "all"
def DagScopeEntity : DagScope := "entity"
def DagScopeBlock : DagScope := "block"

/-- `ParseDagScope` from `types.go`: case-sensitive; unknown values error
and return `DagScopeAll` as the fallback value. -/
def ParseDagScope (s : String) : DagScope × Bool :=
  if s = "all" then (DagScopeAll, true)
  else if s = "entity" then (DagScopeEntity, true)
  else if s = "block" then (DagScopeBlock, true)
  else (DagScopeAll, false)

/-- `ByteRange` from `types.go`: `To = none` represents `*`. -/
structure ByteRange where
  From : Int
  To : Option Int
deriving DecidableEq

/-- `(*ByteRange).IsDefault` from `types.go`; the receiver is a pointer,
modelled as `Option ByteRange` (`none` is Go's nil). -/
def ByteRange.IsDefault : Option ByteRange → Bool
  | none => true
  | some br => br.From = 0 && br.To = none

/-! ## Decimal integer formatting and parsing

Models Go's `strconv.FormatInt(v, 10)` and `strconv.ParseInt(s, 10, 64)`
on `List Char`. -/

/-- The character for a single decimal digit. -/
def digitChar (d : Nat) : Char := Char.ofNat (48 + d)

/-- Decimal form of a natural number, as Go's `strconv.FormatUint(n, 10)`
produces it (most significant digit first, `"0"` for zero). -/
def goFormatNat (n : Nat) : List Char :=
  if n = 0 then ['0'] else ((Nat.digits 10 n).reverse).map digitChar

/-- `strconv.FormatInt(v, 10)`: minus sign then decimal digits. -/
def goFormatInt (v : Int) : List Char :=
  if v < 0 then '-' :: goFormatNat v.natAbs else goFormatNat v.natAbs

/-- Decimal digit value of a character, if it is one. -/
def charDigit (c : Char) : Option Nat :=
  if '0' ≤ c ∧ c ≤ '9' then some (c.toNat - 48) else none

/-- Accumulating decimal parser over characters; fails on any non-digit. -/
def parseDigitsAux : List Char → Nat → Option Nat
  | [], acc => some acc
  | c :: rest, acc =>
    match charDigit c with
    | some d => parseDigitsAux rest (acc * 10 + d)
    | none => none

/-- Parse a non-empty all-digit string to a natural number. -/
def parseDigits : List Char → Option Nat
  | [] => none
  | l => parseDigitsAux l 0

/-- `strconv.ParseInt(s, 10, 64)`: optional sign, decimal digits, and the
int64 range check (values outside `[-2^63, 2^63-1]` are an `ErrRange`
failure). -/
def goParseInt64 (s : List Char) : Option Int :=
  match s with
  | [] => none
  | c :: rest =>
    if c = '-' then
      (parseDigits rest).bind fun n =>
        let v : Int := -(n : Int)
        if -(2 ^ 63) ≤ v ∧ v ≤ 2 ^ 63 - 1 then some v else none
    else if c = '+' then
      (parseDigits rest).bind fun n =>
        let v : Int := (n : Int)
        if -(2 ^ 63) ≤ v ∧ v ≤ 2 ^ 63 - 1 then some v else none
    else
      (parseDigits (c :: rest)).bind fun n =>
        let v : Int := (n : Int)
        if -(2 ^ 63) ≤ v ∧ v ≤ 2 ^ 63 - 1 then some v else none

/-- `strings.Split(s, ":")` for the single-character separator `:`
(the result is always non-empty; a leading separator contributes an empty
part, and a character is prepended to the first part of the split of the
rest). -/
def splitOnColon : List Char → List (List Char)
  | [] => [[]]
  | c :: rest =>
    let parts := splitOnColon rest
    if c = ':' then [] :: parts
    else (c :: parts.headD []) :: parts.tail

/-- `(*ByteRange).String` from `types.go`: `"0:*"` for a default (or nil)
range, otherwise `from ":" (to | "*")`. -/
def ByteRange.toGoString (br? : Option ByteRange) : String :=
  if ByteRange.IsDefault br? then "0:*"
  else
    match br? with
    | none => "0:*"
    | some br =>
      let toStr : List Char :=
        match br.To with
        | none => ['*']
        | some t => goFormatInt t
      ⟨goFormatInt br.From ++ ':' :: toStr⟩

/-- `ParseByteRange` from `types.go`. The Go function returns
`(ByteRange, error)`; an error return is modelled as `.error` with the
quoted offending literal elided. -/
def ParseByteRange (s : String) : Except String ByteRange :=
  if s = "" then .ok ⟨0, none⟩
  else
    match splitOnColon s.data with
    | [fromPart, toPart] =>
      match goParseInt64 fromPart with
      | none => .error "invalid byte range (from is not an integer)"
      | some fromV =>
        if toPart = ['*'] then .ok ⟨fromV, none⟩
        else
          match goParseInt64 toPart with
          | none => .error "invalid byte range (to is not an integer)"
          | some toV => .ok ⟨fromV, some toV⟩
    | _ => .error "invalid byte range"

/-! ## Round-trip lemmas for decimal formatting -/

theorem charDigit_digitChar : ∀ d, d < 10 → charDigit (digitChar d) = some d := by
  decide

theorem digitChar_ne_colon : ∀ d, d < 10 → digitChar d ≠ ':' := by decide

theorem digitChar_ne_minus : ∀ d, d < 10 → digitChar d ≠ '-' := by decide

theorem digitChar_ne_plus : ∀ d, d < 10 → digitChar d ≠ '+' := by decide

theorem digitChar_ne_star : ∀ d, d < 10 → digitChar d ≠ '*' := by decide

theorem parseDigitsAux_map (ds : List Nat) (h : ∀ d ∈ ds, d < 10) (acc : Nat) :
    parseDigitsAux (ds.map digitChar) acc =
      some (ds.foldl (fun a d => a * 10 + d) acc) := by
  induction ds generalizing acc with
  | nil => rfl
  | cons d t ih =>
    have hd : d < 10 := h d (List.mem_cons_self ..)
    have ht : ∀ x ∈ t, x < 10 := fun x hx => h x (List.mem_cons_of_mem _ hx)
    simp only [List.map_cons, parseDigitsAux, charDigit_digitChar d hd, List.foldl_cons]
    exact ih ht (acc * 10 + d)

theorem foldr_eq_ofDigits (l : List Nat) :
    l.foldr (fun d a => a * 10 + d) 0 = Nat.ofDigits 10 l := by
  induction l with
  | nil => simp [Nat.ofDigits]
  | cons d t ih =>
    simp only [List.foldr_cons, ih, Nat.ofDigits_cons]
    omega

theorem parseDigits_goFormatNat (n : Nat) : parseDigits (goFormatNat n) = some n := by
  by_cases h0 : n = 0
  · subst h0; decide
  · have hne : Nat.digits 10 n ≠ [] := Nat.digits_ne_nil_iff_ne_zero.mpr h0
    have hlt : ∀ d ∈ (Nat.digits 10 n).reverse, d < 10 := by
      intro d hd
      exact Nat.digits_lt_base (by norm_num) (List.mem_reverse.mp hd)
    have hfold : ((Nat.digits 10 n).reverse).foldl (fun a d => a * 10 + d) 0 = n := by
      rw [List.foldl_reverse]
      simpa [foldr_eq_ofDigits] using Nat.ofDigits_digits 10 n
    unfold goFormatNat
    rw [if_neg h0]
    obtain ⟨d, t, ht⟩ := List.exists_cons_of_ne_nil
      (fun hnil => hne (List.reverse_eq_nil_iff.mp hnil))
    rw [ht] at hlt hfold ⊢
    have hmap := parseDigitsAux_map (d :: t) hlt 0
    simp only [List.map_cons] at hmap ⊢
    show parseDigitsAux (digitChar d :: List.map digitChar t) 0 = some n
    rw [hmap, hfold]

/-- Every character of `goFormatNat n` is a decimal digit character. -/
theorem goFormatNat_chars (n : Nat) :
    ∀ c ∈ goFormatNat n, ∃ d, d < 10 ∧ c = digitChar d := by
  intro c hc
  unfold goFormatNat at hc
  by_cases h0 : n = 0
  · rw [if_pos h0] at hc
    simp only [List.mem_singleton] at hc
    exact ⟨0, by norm_num, by rw [hc]; rfl⟩
  · rw [if_neg h0] at hc
    obtain ⟨d, hd, rfl⟩ := List.mem_map.mp hc
    exact ⟨d, Nat.digits_lt_base (by norm_num) (List.mem_reverse.mp hd), rfl⟩

theorem goFormatNat_ne_nil (n : Nat) : goFormatNat n ≠ [] := by
  unfold goFormatNat
  by_cases h0 : n = 0
  · rw [if_pos h0]; simp
  · rw [if_neg h0]
    simp only [ne_eq, List.map_eq_nil_iff, List.reverse_eq_nil_iff]
    exact Nat.digits_ne_nil_iff_ne_zero.mpr h0

theorem goFormatInt_ne_nil (v : Int) : goFormatInt v ≠ [] := by
  unfold goFormatInt
  by_cases hv : v < 0
  · rw [if_pos hv]; simp
  · rw [if_neg hv]; exact goFormatNat_ne_nil _

theorem colon_not_mem_goFormatInt (v : Int) : ':' ∉ goFormatInt v := by
  intro hmem
  unfold goFormatInt at hmem
  by_cases hv : v < 0
  · rw [if_pos hv] at hmem
    rcases List.mem_cons.mp hmem with h | h
    · exact absurd h.symm (by decide)
    · obtain ⟨d, hd, he⟩ := goFormatNat_chars _ _ h
      exact digitChar_ne_colon d hd he.symm
  · rw [if_neg hv] at hmem
    obtain ⟨d, hd, he⟩ := goFormatNat_chars _ _ hmem
    exact digitChar_ne_colon d hd he.symm

theorem splitOnColon_no_colon (l : List Char) (h : ':' ∉ l) : splitOnColon l = [l] := by
  induction l with
  | nil => rfl
  | cons c t ih =>
    have hc : c ≠ ':' := fun he => h (he ▸ List.mem_cons_self ..)
    have ht : ':' ∉ t := fun hm => h (List.mem_cons_of_mem _ hm)
    show (let parts := splitOnColon t
      if c = ':' then [] :: parts else (c :: parts.headD []) :: parts.tail) = [c :: t]
    rw [ih ht]
    simp [hc]

theorem splitOnColon_append (a b : List Char) (ha : ':' ∉ a) :
    splitOnColon (a ++ ':' :: b) = a :: splitOnColon b := by
  induction a with
  | nil =>
    simp only [List.nil_append]
    show (let parts := splitOnColon b
      if ':' = ':' then [] :: parts else (':' :: parts.headD []) :: parts.tail)
        = [] :: splitOnColon b
    simp
  | cons c t ih =>
    have hc : c ≠ ':' := fun he => ha (he ▸ List.mem_cons_self ..)
    have ht : ':' ∉ t := fun hm => ha (List.mem_cons_of_mem _ hm)
    simp only [List.cons_append]
    show (let parts := splitOnColon (t ++ ':' :: b)
      if c = ':' then [] :: parts else (c :: parts.headD []) :: parts.tail)
        = (c :: t) :: splitOnColon b
    rw [ih ht]
    simp [hc]

theorem goParseInt64_goFormatInt (v : Int)
    (hlo : -(2 ^ 63) ≤ v) (hhi : v ≤ 2 ^ 63 - 1) :
    goParseInt64 (goFormatInt v) = some v := by
  by_cases hv : v < 0
  · have h1 : goFormatInt v = '-' :: goFormatNat v.natAbs := by
      unfold goFormatInt; rw [if_pos hv]
    have h2 : goParseInt64 ('-' :: goFormatNat v.natAbs) =
        (parseDigits (goFormatNat v.natAbs)).bind fun n =>
          if -(2 ^ 63) ≤ -((n : Nat) : Int) ∧ -((n : Nat) : Int) ≤ 2 ^ 63 - 1 then
            some (-((n : Nat) : Int))
          else none := rfl
    rw [h1, h2, parseDigits_goFormatNat]
    show (if -(2 ^ 63) ≤ -((v.natAbs : Nat) : Int) ∧ -((v.natAbs : Nat) : Int) ≤ 2 ^ 63 - 1
          then some (-((v.natAbs : Nat) : Int)) else none) = some v
    rw [if_pos ⟨by omega, by omega⟩]
    congr 1
    omega
  · have hform : goFormatInt v = goFormatNat v.natAbs := by
      unfold goFormatInt; rw [if_neg hv]
    obtain ⟨c, t, hct⟩ := List.exists_cons_of_ne_nil (goFormatNat_ne_nil v.natAbs)
    obtain ⟨d, hd, hcd⟩ := goFormatNat_chars v.natAbs c (by rw [hct]; exact List.mem_cons_self ..)
    have hcm : c ≠ '-' := by rw [hcd]; exact digitChar_ne_minus d hd
    have hcp : c ≠ '+' := by rw [hcd]; exact digitChar_ne_plus d hd
    have h2 : goParseInt64 (c :: t) =
        (parseDigits (c :: t)).bind fun n =>
          if -(2 ^ 63) ≤ ((n : Nat) : Int) ∧ ((n : Nat) : Int) ≤ 2 ^ 63 - 1 then
            some (((n : Nat) : Int))
          else none := by
      show (if c = '-' then
          (parseDigits t).bind fun n =>
            if -(2 ^ 63) ≤ -((n : Nat) : Int) ∧ -((n : Nat) : Int) ≤ 2 ^ 63 - 1 then
              some (-((n : Nat) : Int))
            else none
        else if c = '+' then
          (parseDigits t).bind fun n =>
            if -(2 ^ 63) ≤ ((n : Nat) : Int) ∧ ((n : Nat) : Int) ≤ 2 ^ 63 - 1 then
              some (((n : Nat) : Int))
            else none
        else
          (parseDigits (c :: t)).bind fun n =>
            if -(2 ^ 63) ≤ ((n : Nat) : Int) ∧ ((n : Nat) : Int) ≤ 2 ^ 63 - 1 then
              some (((n : Nat) : Int))
            else none) = _
      rw [if_neg hcm, if_neg hcp]
    rw [hform, hct, h2, ← hct, parseDigits_goFormatNat]
    show (if -(2 ^ 63) ≤ ((v.natAbs : Nat) : Int) ∧ ((v.natAbs : Nat) : Int) ≤ 2 ^ 63 - 1
          then some (((v.natAbs : Nat) : Int)) else none) = some v
    rw [if_pos ⟨by omega, by omega⟩]
    congr 1
    omega

/-- C7 helper: the string form of a non-default byte range splits back into
its two parts. -/
theorem splitOnColon_toGoString (br : ByteRange) (hnd : ¬(br.From = 0 ∧ br.To = none)) :
    splitOnColon (ByteRange.toGoString (some br)).data =
      [goFormatInt br.From,
        match br.To with
        | none => ['*']
        | some t => goFormatInt t] := by
  have hdef : ByteRange.IsDefault (some br) = false := by
    simp only [ByteRange.IsDefault, Bool.and_eq_false_iff]
    by_cases h0 : br.From = 0
    · right
      rcases h : br.To with _ | t
      · exact absurd ⟨h0, h⟩ hnd
      · simp [h]
    · left; simp [h0]
  unfold ByteRange.toGoString
  rw [hdef]
  simp only [Bool.false_eq_true, if_false]
  rw [splitOnColon_append _ _ (colon_not_mem_goFormatInt _)]
  congr 1
  rcases br.To with _ | t
  · simp [splitOnColon]
  · exact splitOnColon_no_colon _ (colon_not_mem_goFormatInt t)

theorem goFormatInt_ne_star (v : Int) : goFormatInt v ≠ ['*'] := by
  intro he
  unfold goFormatInt at he
  by_cases hv : v < 0
  · rw [if_pos hv] at he
    injection he with h1 h2
    exact absurd h1 (by decide)
  · rw [if_neg hv] at he
    obtain ⟨d, hd, hcd⟩ := goFormatNat_chars v.natAbs '*' (by rw [he]; exact List.mem_cons_self ..)
    exact digitChar_ne_star d hd hcd.symm

theorem toGoString_ne_empty (br? : Option ByteRange) : ByteRange.toGoString br? ≠ "" := by
  unfold ByteRange.toGoString
  by_cases hd : ByteRange.IsDefault br?
  · rw [if_pos hd]; decide
  · rw [if_neg hd]
    rcases br? with _ | br
    · decide
    · show (⟨goFormatInt br.From ++ ':' :: _⟩ : String) ≠ ""
      intro he
      have : goFormatInt br.From ++ ':' :: _ = [] := congrArg String.data he
      exact absurd this (by simp)

/-- Unfolding helper: `ParseByteRange` on a string that splits into two
parts. -/
theorem parseByteRange_parts (s : String) (hne : s ≠ "") (f tP : List Char)
    (hs : splitOnColon s.data = [f, tP]) :
    ParseByteRange s =
      (match goParseInt64 f with
      | none => .error "invalid byte range (from is not an integer)"
      | some fromV =>
        if tP = ['*'] then .ok ⟨fromV, none⟩
        else
          match goParseInt64 tP with
          | none => .error "invalid byte range (to is not an integer)"
          | some toV => .ok ⟨fromV, some toV⟩) := by
  unfold ParseByteRange
  rw [if_neg hne, hs]

/-- C7: `ParseByteRange (br.String())` round-trips: a non-default byte
range (with `from`/`to` in the `int64` range, as Go's types guarantee)
parses back to exactly itself, and a default byte range (including an
absent/nil one) round-trips to the default byte range. -/
theorem parseByteRange_roundtrip (br : ByteRange)
    (hfrom : -(2 ^ 63) ≤ br.From ∧ br.From ≤ 2 ^ 63 - 1)
    (hto : ∀ t, br.To = some t → -(2 ^ 63) ≤ t ∧ t ≤ 2 ^ 63 - 1) :
    (¬(br.From = 0 ∧ br.To = none) →
      ParseByteRange (ByteRange.toGoString (some br)) = .ok br)
    ∧ ((br.From = 0 ∧ br.To = none) →
      ParseByteRange (ByteRange.toGoString (some br)) = .ok ⟨0, none⟩)
    ∧ ParseByteRange (ByteRange.toGoString none) = .ok ⟨0, none⟩ := by
  refine ⟨fun hnd => ?_, fun hd => ?_, by rfl⟩
  · rcases hbrto : br.To with _ | t
    · have hs : splitOnColon (ByteRange.toGoString (some br)).data
          = [goFormatInt br.From, ['*']] := by
        rw [splitOnColon_toGoString br hnd, hbrto]
      rw [parseByteRange_parts _ (toGoString_ne_empty _) _ _ hs]
      simp only [goParseInt64_goFormatInt br.From hfrom.1 hfrom.2]
      rw [if_pos trivial]
      have : (⟨br.From, none⟩ : ByteRange) = br := by cases br; simp_all
      rw [this]
    · have hs : splitOnColon (ByteRange.toGoString (some br)).data
          = [goFormatInt br.From, goFormatInt t] := by
        rw [splitOnColon_toGoString br hnd, hbrto]
      rw [parseByteRange_parts _ (toGoString_ne_empty _) _ _ hs]
      simp only [goParseInt64_goFormatInt br.From hfrom.1 hfrom.2]
      rw [if_neg (goFormatInt_ne_star t)]
      obtain ⟨hlo, hhi⟩ := hto t hbrto
      simp only [goParseInt64_goFormatInt t hlo hhi]
      have : (⟨br.From, some t⟩ : ByteRange) = br := by cases br; simp_all
      rw [this]
  · have h1 : ByteRange.toGoString (some br) = "0:*" := by
      unfold ByteRange.toGoString
      rw [if_pos (by simp [ByteRange.IsDefault, hd.1, hd.2])]
    rw [h1]
    rfl

/-- Witness for C7 at the concrete range `101:202` (and the default). -/
theorem parseByteRange_roundtrip_witness :
    ParseByteRange (ByteRange.toGoString (some ⟨101, some 202⟩)) = .ok ⟨101, some 202⟩ :=
  (parseByteRange_roundtrip ⟨101, some 202⟩ (by constructor <;> decide)
    (fun t ht => by injection ht with h; subst h; constructor <;> decide)).1
    (by intro h; exact absurd h.2 (by decide))

/-! ## IPLD paths

`datamodel.ParsePath` splits on `/`, collapsing repeated separators and
trimming leading/trailing ones; `Path.String()` joins the segments with
`/`. -/

/-- `strings.Split` on `/`, built like `splitOnColon`. -/
def splitOnSlash : List Char → List (List Char)
  | [] => [[]]
  | c :: rest =>
    let parts := splitOnSlash rest
    if c = '/' then [] :: parts
    else (c :: parts.headD []) :: parts.tail

/-- The segments of `datamodel.ParsePath p` (empty segments are dropped). -/
def pathSegments (p : String) : List String :=
  ((splitOnSlash p.data).filter (fun seg => ¬seg.isEmpty)).map (fun seg => ⟨seg⟩)

/-- `datamodel.ParsePath(p).String()`: the canonical `/`-joined form. -/
def parsePathString (p : String) : String :=
  String.intercalate "/" (pathSegments p)

/-! ## Selector synthesis

IPLD selectors are data: trees of maps, lists, integers and strings. The
node shapes produced by the `go-ipld-prime` selector builder (and the two
`unixfsnode` selector constants) are fixed by the DAG-JSON forms pinned in
`types_test.go`. -/

/-- An IPLD data-model node, restricted to the shapes selectors use. Map
entries are in insertion (= DAG-JSON) order. -/
inductive Node where
  | int (i : Int)
  | str (s : String)
  | list (elems : List Node)
  | map (entries : List (String × Node))

/-- `ssb.Matcher()`: `{".": {}}`. -/
def ssbMatcher : Node := .map [(".", .map [])]

/-- `ssb.ExploreRecursiveEdge()`: `{"@": {}}`. -/
def ssbExploreRecursiveEdge : Node := .map [("@", .map [])]

/-- `ssb.ExploreAll(next)`: `{"a": {">": next}}`. -/
def ssbExploreAll (next : Node) : Node := .map [("a", .map [(">", next)])]

/-- `ssb.ExploreRecursive(RecursionLimitDepth d, seq)`:
`{"R": {":>": seq, "l": {"depth": d}}}`. -/
def ssbExploreRecursiveDepth (d : Int) (seq : Node) : Node :=
  .map [("R", .map [(":>", seq), ("l", .map [("depth", .int d)])])]

/-- `ssb.ExploreRecursive(RecursionLimitNone, seq)`:
`{"R": {":>": seq, "l": {"none": {}}}}`. -/
def ssbExploreRecursiveNone (seq : Node) : Node :=
  .map [("R", .map [(":>", seq), ("l", .map [("none", .map [])])])]

/-- `ssb.ExploreInterpretAs(adl, next)`: `{"~": {">": next, "as": adl}}`. -/
def ssbExploreInterpretAs (adl : String) (next : Node) : Node :=
  .map [("~", .map [(">", next), ("as", .str adl)])]

/-- `ssb.ExploreUnion(members…)`: `{"|": [members…]}`. -/
def ssbExploreUnion (members : List Node) : Node := .map [("|", .list members)]

/-- `ssb.MatcherSubset(from, to)`:
`{".": {"subset": {"[": from, "]": to}}}`. -/
def ssbMatcherSubset (fromI toI : Int) : Node :=
  .map [(".", .map [("subset", .map [("[", .int fromI), ("]", .int toI)])])]

/-- `ssb.ExploreFields({field: next})` for a single field:
`{"f": {"f>": {field: next}}}`. -/
def ssbExploreFields (field : String) (next : Node) : Node :=
  .map [("f", .map [("f>", .map [(field, next)])])]

/-- `unixfsnode.ExploreAllRecursivelySelector`: recursive explore-all with
no depth limit. -/
def exploreAllRecursivelySelector : Node :=
  ssbExploreRecursiveNone (ssbExploreAll ssbExploreRecursiveEdge)

/-- `unixfsnode.MatchUnixFSEntitySelector`: interpret-as unixfs of a union
of a plain matcher and a depth-1 recursive explore-all. -/
def matchUnixFSEntitySelector : Node :=
  ssbExploreInterpretAs "unixfs"
    (ssbExploreUnion
      [ssbMatcher, ssbExploreRecursiveDepth 1 (ssbExploreAll ssbExploreRecursiveEdge)])

/-- `unixfsnode.UnixFSPathSelectorBuilder(path, target, false)`: wraps the
target in `interpret-as("unixfs", explore-fields)` once per path segment,
outermost segment first. -/
def unixFSPathSelectorBuilder (path : String) (target : Node) : Node :=
  (pathSegments path).foldr
    (fun seg inner => ssbExploreInterpretAs "unixfs" (ssbExploreFields seg inner)) target

/-- `DagScope.TerminalSelectorSpec` from `types.go` (explore-all for the
zero value and unknown scopes). -/
def DagScope.TerminalSelectorSpec (ds : DagScope) : Node :=
  if ds = DagScopeAll then exploreAllRecursivelySelector
  else if ds = DagScopeEntity then matchUnixFSEntitySelector
  else if ds = DagScopeBlock then ssbMatcher
  else exploreAllRecursivelySelector

/-- `math.MaxInt64`. -/
def maxInt64 : Int := 2 ^ 63 - 1

/-- `math.MinInt64`. -/
def minInt64 : Int := -(2 ^ 63)

/-- Two's-complement wrap of an integer into the `int64` range, as Go
arithmetic on `int64` behaves. -/
def wrap64 (v : Int) : Int := (v + 2 ^ 63) % 2 ^ 64 - 2 ^ 63

/-- The exclusive upper bound used by `Request.Selector` for the subset
matcher: `var to int64 = math.MaxInt64; if To != nil { to = *To;
if to >= 0 { to++ } }`. The increment is Go `int64` arithmetic, so
`to = MaxInt64` wraps to `MinInt64`. -/
def normalizedTo : Option Int → Int
  | none => maxInt64
  | some t => if 0 ≤ t then wrap64 (t + 1) else t

/-- `Request` from `types.go`. -/
structure Request where
  Root : Cid
  Path : String
  Scope : DagScope
  Bytes : Option ByteRange
  Duplicates : Bool

/-- `Request.Selector` from `types.go`: the scope's terminal selector,
replaced — when the scope is `entity` and the byte range is non-default —
by an interpret-as("unixfs") union of a subset matcher and a depth-1
recursive explore; then wrapped in field selectors for the request path.
(Matching on `Bytes` first mirrors the guard that makes the Go
`r.Bytes.From`/`*r.Bytes.To` dereferences safe.) -/
def Request.Selector (r : Request) : Node :=
  let terminal := DagScope.TerminalSelectorSpec r.Scope
  let terminal :=
    match r.Bytes with
    | some br =>
      if r.Scope = DagScopeEntity ∧ ¬ByteRange.IsDefault (some br) then
        ssbExploreInterpretAs "unixfs"
          (ssbExploreUnion
            [ssbMatcherSubset br.From (normalizedTo br.To),
              ssbExploreRecursiveDepth 1 (ssbExploreAll ssbExploreRecursiveEdge)])
      else terminal
    | none => terminal
  unixFSPathSelectorBuilder r.Path terminal

/-! ## Navigating selector nodes -/

/-- Look a key up in a map node. -/
def mapGet (n : Node) (k : String) : Option Node :=
  match n with
  | .map entries => entries.findSome? (fun p => if p.1 = k then some p.2 else none)
  | _ => none

/-- Index into a list node. -/
def listGet (n : Node) (i : Nat) : Option Node :=
  match n with
  | .list elems => elems.get? i
  | _ => none

/-- The integer carried by an int node. -/
def asInt (n : Node) : Option Int :=
  match n with
  | .int i => some i
  | _ => none

/-- The exclusive end bound of the subset matcher inside an
interpret-as("unixfs") union terminal (the `"]"` value). -/
def subsetEnd (sel : Node) : Option Int :=
  (mapGet sel "~").bind fun n1 =>
  (mapGet n1 ">").bind fun n2 =>
  (mapGet n2 "|").bind fun n3 =>
  (listGet n3 0).bind fun n4 =>
  (mapGet n4 ".").bind fun n5 =>
  (mapGet n5 "subset").bind fun n6 =>
  (mapGet n6 "]").bind asInt

/-- C1 counterexample: for the Entity-scoped request with byte range
`0:9223372036854775807` (`to = MaxInt64`, which is non-negative), the
synthesized subset matcher's exclusive end bound is `MinInt64` — the Go
`to++` wraps — not `to + 1` as the claim states for every non-negative
`to`. -/
theorem selector_entity_range_counterexample :
    subsetEnd (Request.Selector
        ⟨⟨0x71, [0], "bafytestcid"⟩, "", DagScopeEntity,
          some ⟨0, some (2 ^ 63 - 1)⟩, false⟩) = some minInt64
    ∧ minInt64 ≠ maxInt64 + 1 := by
  constructor
  · rfl
  · decide

/-- C1 (amended): for every Entity-scoped request with a non-default byte
range (`to` in the `int64` range, as Go's types guarantee), the selector
replaces the terminal with an interpret-as("unixfs") union of a subset
matcher and a depth-1 recursive explore, where the subset matcher's
exclusive end bound is `MaxInt64` when `to` is absent, `to + 1` when `to`
is non-negative and below `MaxInt64`, `MinInt64` (by `int64` wrap-around)
when `to = MaxInt64`, and exactly `to` when `to` is negative. -/
theorem selector_entity_range (r : Request) (br : ByteRange)
    (hscope : r.Scope = DagScopeEntity) (hbytes : r.Bytes = some br)
    (hnd : ¬(br.From = 0 ∧ br.To = none)) :
    Request.Selector r = unixFSPathSelectorBuilder r.Path
      (ssbExploreInterpretAs "unixfs"
        (ssbExploreUnion
          [ssbMatcherSubset br.From (normalizedTo br.To),
            ssbExploreRecursiveDepth 1 (ssbExploreAll ssbExploreRecursiveEdge)]))
    ∧ (br.To = none → normalizedTo br.To = maxInt64)
    ∧ (∀ t, br.To = some t → 0 ≤ t → t < maxInt64 → normalizedTo br.To = t + 1)
    ∧ (br.To = some maxInt64 → normalizedTo br.To = minInt64)
    ∧ (∀ t, br.To = some t → t < 0 → normalizedTo br.To = t) := by
  have hdef : ¬ByteRange.IsDefault (some br) = true := by
    simp only [ByteRange.IsDefault, Bool.and_eq_true, decide_eq_true_eq]
    intro h
    exact hnd ⟨h.1, by simpa using h.2⟩
  refine ⟨?_, ?_, ?_, ?_, ?_⟩
  · simp only [Request.Selector, hbytes]
    rw [if_pos ⟨hscope, hdef⟩]
  · intro h; rw [h]; rfl
  · intro t ht h0 hlt
    rw [ht]
    simp only [normalizedTo, if_pos h0, wrap64, maxInt64] at *
    omega
  · intro h
    rw [h]
    simp only [normalizedTo, maxInt64, minInt64, wrap64]
    norm_num
  · intro t ht hneg
    rw [ht]
    simp only [normalizedTo]
    rw [if_neg (by omega)]

/-- Witness for the amended C1 at the concrete request
`{scope: entity, bytes: 100:200}`: the terminal is the union with subset
bounds `[100, 201)`. -/
theorem selector_entity_range_witness :
    Request.Selector
        ⟨⟨0x71, [0], "bafytestcid"⟩, "", DagScopeEntity, some ⟨100, some 200⟩, false⟩
      = unixFSPathSelectorBuilder ""
        (ssbExploreInterpretAs "unixfs"
          (ssbExploreUnion
            [ssbMatcherSubset 100 (normalizedTo (some 200)),
              ssbExploreRecursiveDepth 1 (ssbExploreAll ssbExploreRecursiveEdge)])) :=
  (selector_entity_range _ ⟨100, some 200⟩ rfl rfl
    (fun h => absurd h.1 (by decide))).1

/-! ## CheckPath (`traversal.go`) -/

/-- `CheckPath` from `traversal.go`: walks the expected path against the
last visited path, failing when the last path runs out first or a segment
differs; a longer last path is accepted. Paths are segment lists, the
error is the Go error message. -/
def CheckPath (expectPath lastPath : List String) : Option String :=
  match expectPath with
  | [] => none
  | seg :: expectRest =>
    match lastPath with
    | [] =>
      some ("failed to traverse full path, missed: ["
        ++ String.intercalate "/" (seg :: expectRest) ++ "]")
    | lastSeg :: lastRest =>
      if seg ≠ lastSeg then
        some ("unexpected path segment visit, got [" ++ lastSeg
          ++ "], expected [" ++ seg ++ "]")
      else CheckPath expectRest lastRest

/-- C5: `CheckPath(expected, last)` fails exactly when `expected` is not a
segment-wise prefix of `last`; in particular a longer `last` path is never
an error and an empty expected path always succeeds. -/
theorem checkPath_fails_iff_not_prefix (expectPath lastPath : List String) :
    ((CheckPath expectPath lastPath).isSome ↔ ¬(expectPath <+: lastPath))
    ∧ CheckPath [] lastPath = none := by
  constructor
  · induction expectPath generalizing lastPath with
    | nil => simp [CheckPath, List.nil_prefix]
    | cons seg expectRest ih =>
      match lastPath with
      | [] => simp [CheckPath, List.prefix_nil]
      | lastSeg :: lastRest =>
        by_cases hseg : seg = lastSeg
        · subst hseg
          simp [CheckPath, ih, List.cons_prefix_cons]
        · simp [CheckPath, hseg, List.cons_prefix_cons]
  · rfl

/-! ## The traversal error model (`traversal.go`)

Go errors are modelled as an inductive: the sentinel errors of the
package, `format.ErrNotFound` (which implements `NotFound() bool`),
`fmt.Errorf("…%w", inner)` wrapping (which `errors.Unwrap` undoes), and
`multierr.Combine` (which `errors.Unwrap` does not look into). -/

inductive GoErr where
  | malformedCar
  | badVersion
  | badRoots
  | unexpectedBlock (got expected : Cid)
  | extraneousBlock
  | missingBlock
  | notFound (c : Cid)
  | wrap (msg : String) (inner : GoErr)
  | combine (a b : GoErr)
  | other (msg : String)
deriving DecidableEq

/-- The `err.(interface{ NotFound() bool })` type assertion: only
`format.ErrNotFound` satisfies it. -/
def GoErr.isNotFound : GoErr → Bool
  | .notFound _ => true
  | _ => false

/-- `traversalError` from `traversal.go`: walk the `errors.Unwrap` chain
of the original error; at the first level satisfying `NotFound()`, return
`ErrMissingBlock` combined with that level's error; if the chain ends,
return the original error. (Only `wrap` has an `Unwrap`; the not-found
check is made before unwrapping, so the recursion matches the Go loop.) -/
def traversalErrorAux (original : GoErr) : GoErr → GoErr
  | .notFound c => .combine .missingBlock (.notFound c)
  | .wrap _ inner => traversalErrorAux original inner
  | _ => original

def traversalError (e : GoErr) : GoErr := traversalErrorAux e e

/-! ## readNextBlock (`traversal.go`)

The incoming block stream is a list of CAR-decoder results (`.ok` blocks
or decode errors), with EOF at the end of the list. -/

/-- `readNextBlock` from `traversal.go`: EOF becomes
`format.ErrNotFound{Cid: expected}`, a stream error becomes
`ErrMalformedCar` combined with it, and a block whose multihash differs
from the expected CID's multihash becomes `ErrUnexpectedBlock`; the
comparison is `bytes.Equal(blk.Cid().Hash(), expected.Hash())` — multihash
bytes only, never the codec. On success the block's bytes and the rest of
the stream are returned. -/
def readNextBlock (stream : List (Except GoErr Block)) (expected : Cid) :
    Except GoErr (List Nat × List (Except GoErr Block)) :=
  match stream with
  | [] => .error (.notFound expected)
  | .error e :: _ => .error (.combine .malformedCar e)
  | .ok blk :: rest =>
    if blk.cid.hash = expected.hash then .ok (blk.data, rest)
    else .error (.unexpectedBlock blk.cid expected)

/-- Iterated `fmt.Errorf` wrapping. -/
def wrapMany (msgs : List String) (e : GoErr) : GoErr :=
  msgs.foldr GoErr.wrap e

/-- Unwrapping any number of `fmt.Errorf` layers reaches the not-found
error, whatever the original error being carried along. -/
theorem traversalErrorAux_wrapMany (o : GoErr) (msgs : List String) (c : Cid) :
    traversalErrorAux o (wrapMany msgs (.notFound c))
      = .combine .missingBlock (.notFound c) := by
  induction msgs with
  | nil => rfl
  | cons m t ih => exact ih

/-- C3: reading the next block at EOF yields a not-found error for the
expected CID, which the verifier maps to `ErrMissingBlock` from any
`fmt.Errorf` nesting depth; a block whose multihash digest differs from
the expected CID's is `ErrUnexpectedBlock`; and a block whose CID has a
different codec but the same multihash is accepted. -/
theorem readNextBlock_spec :
    (∀ (expected : Cid), readNextBlock [] expected = .error (.notFound expected))
    ∧ (∀ (msgs : List String) (c : Cid),
        traversalError (wrapMany msgs (.notFound c))
          = .combine .missingBlock (.notFound c))
    ∧ (∀ (blk : Block) (rest : List (Except GoErr Block)) (expected : Cid),
        blk.cid.hash ≠ expected.hash →
          readNextBlock (.ok blk :: rest) expected
            = .error (.unexpectedBlock blk.cid expected))
    ∧ (∀ (blk : Block) (rest : List (Except GoErr Block)) (expected : Cid),
        blk.cid.codec ≠ expected.codec → blk.cid.hash = expected.hash →
          readNextBlock (.ok blk :: rest) expected = .ok (blk.data, rest)) := by
  refine ⟨fun expected => rfl, fun msgs c => ?_, fun blk rest expected hne => ?_,
    fun blk rest expected _hcodec heq => ?_⟩
  · exact traversalErrorAux_wrapMany _ msgs c
  · simp only [readNextBlock, if_neg hne]
  · simp only [readNextBlock, if_pos heq]

/-- Witness for C3: a mismatched digest is rejected, and a block whose CID
has a different codec (`dag-cbor` vs `raw`) but the same multihash is
accepted. -/
theorem readNextBlock_spec_witness :
    readNextBlock [.ok ⟨⟨0x71, [1, 2], "x"⟩, [9, 9]⟩] ⟨0x55, [3, 4], "y"⟩
        = .error (.unexpectedBlock ⟨0x71, [1, 2], "x"⟩ ⟨0x55, [3, 4], "y"⟩)
    ∧ readNextBlock [.ok ⟨⟨0x71, [1, 2], "x"⟩, [9, 9]⟩] ⟨0x55, [1, 2], "y"⟩
        = .ok ([9, 9], []) :=
  ⟨readNextBlock_spec.2.2.1 ⟨⟨0x71, [1, 2], "x"⟩, [9, 9]⟩ [] ⟨0x55, [3, 4], "y"⟩ (by decide),
    readNextBlock_spec.2.2.2 ⟨⟨0x71, [1, 2], "x"⟩, [9, 9]⟩ [] ⟨0x55, [1, 2], "y"⟩
      (by decide) (by decide)⟩

/-! ## The traversal driver (`traversal.go`)

`Config.nextBlockReadOpener` is the single point of block ingestion: each
link load the selector engine makes pulls a block from the stream (or the
store, for duplicates) and writes it through. The traversal is modelled by
the sequence of link loads (`walk`) the selector engine makes, in order,
threaded through an explicit state. -/

/-- `Config` from `traversal.go` (the selector node is carried for
completeness; the walk a compiled selector produces is a parameter of the
run model). -/
structure Config where
  Root : Cid
  AllowCARv2 : Bool
  Selector : Node
  CheckRootsMismatch : Bool
  ExpectDuplicatesIn : Bool
  WriteDuplicatesOut : Bool
  MaxBlocks : Nat

/-- `writeTracker` from `traversal.go`. Counters are Go `uint64`; a
traversal over a finite stream cannot reach `2^64` blocks, so they are
modelled as `Nat`. -/
structure WriteTracker where
  blocksIn : Nat
  blocksOut : Nat
  bytesIn : Nat
  bytesOut : Nat
deriving DecidableEq

def recordBlockIn (bt : WriteTracker) (data : List Nat) : WriteTracker :=
  { bt with blocksIn := bt.blocksIn + 1, bytesIn := bt.bytesIn + data.length }

def recordBlockOut (bt : WriteTracker) (data : List Nat) : WriteTracker :=
  { bt with blocksOut := bt.blocksOut + 1, bytesOut := bt.bytesOut + data.length }

deriving instance DecidableEq for Except

/-- The verifier's per-call state: the `seen` CID set, the rest of the
incoming stream, the LinkSystem's store (an association list of written
blocks), and the byte/block counters. -/
structure RunState where
  seen : List Cid
  stream : List (Except GoErr Block)
  store : List (Cid × List Nat)
  bt : WriteTracker
deriving DecidableEq

/-- A read from the caller-supplied LinkSystem (used to replay duplicates
when the stream is not expected to carry them). -/
def storeRead (store : List (Cid × List Nat)) (c : Cid) : Except GoErr (List Nat) :=
  match store.find? (fun p => p.1 = c) with
  | some p => .ok p.2
  | none => .error (.notFound c)

/-- The shared tail of the read opener: `bt.recordBlockOut(data)` followed
by the write into the LinkSystem. -/
def commitBlock (st : RunState) (c : Cid) (data : List Nat) :
    List Nat × RunState :=
  (data, { st with bt := recordBlockOut st.bt data, store := (c, data) :: st.store })

/-- One call of the read opener returned by `Config.nextBlockReadOpener`,
for the link `c`:

* a CID already seen with `ExpectDuplicatesIn` replays the block from the
  stream (counted in), and skips the write (and the out-count) unless
  `WriteDuplicatesOut`;
* a CID already seen without `ExpectDuplicatesIn` replays the block from
  the store, and returns it as-is (no counting, no write) unless
  `WriteDuplicatesOut`;
* a new CID is recorded in `seen` and read from the stream (counted in),
  then written (counted out). -/
def nextBlockLoad (cfg : Config) (st : RunState) (c : Cid) :
    Except GoErr (List Nat × RunState) :=
  if c ∈ st.seen then
    if cfg.ExpectDuplicatesIn then
      match readNextBlock st.stream c with
      | .error e => .error e
      | .ok (data, stream') =>
        if cfg.WriteDuplicatesOut then
          .ok (commitBlock { st with stream := stream', bt := recordBlockIn st.bt data } c data)
        else .ok (data, { st with stream := stream', bt := recordBlockIn st.bt data })
    else
      match storeRead st.store c with
      | .error e => .error e
      | .ok data =>
        if cfg.WriteDuplicatesOut then .ok (commitBlock st c data)
        else .ok (data, st)
  else
    match readNextBlock st.stream c with
    | .error e => .error e
    | .ok (data, stream') =>
      .ok (commitBlock
        { st with seen := c :: st.seen, stream := stream', bt := recordBlockIn st.bt data }
        c data)

/-- The sequence of link loads the selector traversal makes, threaded
through the read opener. -/
def runTraversal (cfg : Config) : List Cid → RunState → Except GoErr RunState
  | [], st => .ok st
  | c :: rest, st =>
    match nextBlockLoad cfg st c with
    | .error e => .error e
    | .ok (_, st') => runTraversal cfg rest st'

/-- How many loads of the walk hit a CID already seen (the `seen` set
accumulating along the way). -/
def dupCount (seen : List Cid) : List Cid → Nat
  | [] => 0
  | c :: rest =>
    if c ∈ seen then 1 + dupCount seen rest
    else dupCount (c :: seen) rest

/-- How many loads of the walk are first-time loads. -/
def newCount (seen : List Cid) : List Cid → Nat
  | [] => 0
  | c :: rest =>
    if c ∈ seen then newCount seen rest
    else 1 + newCount (c :: seen) rest

/-- Effect of one successful duplicate load on the seen set and the block
counters: the in-counter moves iff the stream is expected to replay
duplicates, the out-counter moves iff duplicates are written out. -/
theorem nextBlockLoad_dup (cfg : Config) (st : RunState) (c : Cid) (d : List Nat)
    (st₁ : RunState) (hmem : c ∈ st.seen)
    (h : nextBlockLoad cfg st c = .ok (d, st₁)) :
    st₁.seen = st.seen
    ∧ st₁.bt.blocksIn = st.bt.blocksIn + (if cfg.ExpectDuplicatesIn then 1 else 0)
    ∧ st₁.bt.blocksOut = st.bt.blocksOut + (if cfg.WriteDuplicatesOut then 1 else 0) := by
  unfold nextBlockLoad at h
  rw [if_pos hmem] at h
  by_cases he : cfg.ExpectDuplicatesIn
  · rw [if_pos he] at h
    split at h
    · cases h
    · rename_i data stream' heq
      by_cases hw : cfg.WriteDuplicatesOut
      · rw [if_pos hw] at h
        injection h with h'
        injection h' with hd hst
        subst hd; subst hst
        simp [commitBlock, recordBlockIn, recordBlockOut, he, hw]
      · rw [if_neg hw] at h
        injection h with h'
        injection h' with hd hst
        subst hd; subst hst
        simp [recordBlockIn, he, hw]
  · rw [if_neg he] at h
    split at h
    · cases h
    · rename_i data heq
      by_cases hw : cfg.WriteDuplicatesOut
      · rw [if_pos hw] at h
        injection h with h'
        injection h' with hd hst
        subst hd; subst hst
        simp [commitBlock, recordBlockOut, he, hw]
      · rw [if_neg hw] at h
        injection h with h'
        injection h' with hd hst
        subst hd; subst hst
        simp [he, hw]

/-- Effect of one successful first-time load: the CID joins the seen set
and both counters move. -/
theorem nextBlockLoad_new (cfg : Config) (st : RunState) (c : Cid) (d : List Nat)
    (st₁ : RunState) (hmem : c ∉ st.seen)
    (h : nextBlockLoad cfg st c = .ok (d, st₁)) :
    st₁.seen = c :: st.seen
    ∧ st₁.bt.blocksIn = st.bt.blocksIn + 1
    ∧ st₁.bt.blocksOut = st.bt.blocksOut + 1 := by
  unfold nextBlockLoad at h
  rw [if_neg hmem] at h
  split at h
  · cases h
  · rename_i data stream' heq
    injection h with h'
    injection h' with hd hst
    subst hd; subst hst
    simp [commitBlock, recordBlockIn, recordBlockOut]

/-- Counter bookkeeping along a successful traversal: the in-counter grows
by the number of first-time loads plus (when the stream replays
duplicates) the number of duplicate loads, and the out-counter by the
number of first-time loads plus (when duplicates are written out) the
number of duplicate loads. -/
theorem runTraversal_counts (cfg : Config) (walk : List Cid) :
    ∀ st st', runTraversal cfg walk st = .ok st' →
    st'.bt.blocksIn = st.bt.blocksIn + newCount st.seen walk
        + (if cfg.ExpectDuplicatesIn then dupCount st.seen walk else 0)
    ∧ st'.bt.blocksOut = st.bt.blocksOut + newCount st.seen walk
        + (if cfg.WriteDuplicatesOut then dupCount st.seen walk else 0) := by
  induction walk with
  | nil =>
    intro st st' h
    injection h with h
    subst h
    simp [newCount, dupCount]
  | cons c rest ih =>
    intro st st' h
    unfold runTraversal at h
    split at h
    · cases h
    · rename_i d st₁ hl
      by_cases hmem : c ∈ st.seen
      · obtain ⟨hseen, hin, hout⟩ := nextBlockLoad_dup cfg st c d st₁ hmem hl
        obtain ⟨hin', hout'⟩ := ih st₁ st' h
        rw [hseen] at hin' hout'
        simp only [newCount, dupCount, if_pos hmem]
        by_cases he : cfg.ExpectDuplicatesIn <;> by_cases hw : cfg.WriteDuplicatesOut <;>
          simp [he, hw] at hin hout hin' hout' ⊢ <;> omega
      · obtain ⟨hseen, hin, hout⟩ := nextBlockLoad_new cfg st c d st₁ hmem hl
        obtain ⟨hin', hout'⟩ := ih st₁ st' h
        rw [hseen] at hin' hout'
        simp only [newCount, dupCount, if_neg hmem]
        by_cases he : cfg.ExpectDuplicatesIn <;> by_cases hw : cfg.WriteDuplicatesOut <;>
          simp [he, hw] at hin hout hin' hout' ⊢ <;> omega

/-- `TraversalResult` from `traversal.go`. -/
structure TraversalResult where
  LastPath : List String
  BlocksIn : Nat
  BytesIn : Nat
  BlocksOut : Nat
  BytesOut : Nat
deriving DecidableEq

/-- The zero `TraversalResult{}` Go returns alongside every error. -/
def emptyTraversalResult : TraversalResult := ⟨[], 0, 0, 0, 0⟩

/-- `Config.VerifyBlockStream` from `traversal.go`: run the selector
traversal (the sequence of link loads `walk`, with `lastPath` the deepest
path the visitor records on success), mapping nested not-found errors to
`ErrMissingBlock`; then require the stream to be exhausted — one more
successful `Next` is `ErrExtraneousBlock`, a non-EOF error surfaces — and
only then report the tracker's counters. Errors are paired with the zero
result, as Go's multiple returns do. -/
def VerifyBlockStream (cfg : Config) (walk : List Cid) (lastPath : List String)
    (st : RunState) : TraversalResult × Option GoErr :=
  match runTraversal cfg walk st with
  | .error e => (emptyTraversalResult, some (traversalError e))
  | .ok st' =>
    match st'.stream with
    | .ok _ :: _ => (emptyTraversalResult, some .extraneousBlock)
    | .error e :: _ => (emptyTraversalResult, some e)
    | [] =>
      (⟨lastPath, st'.bt.blocksIn, st'.bt.bytesIn, st'.bt.blocksOut, st'.bt.bytesOut⟩, none)

/-- A CAR header: version and root list. -/
structure CarHeader where
  version : Nat
  roots : List Cid

/-- `Config.VerifyCar` from `traversal.go`: parse the CAR header (the
parse outcome is the `headerResult` input; a parse error is combined with
`ErrMalformedCar`), accept only version 1 — or 2 with `AllowCARv2` —,
check the roots when `CheckRootsMismatch` (exactly one root, equal to the
configured root), then verify the block stream. -/
def VerifyCar (cfg : Config) (headerResult : Except GoErr CarHeader)
    (walk : List Cid) (lastPath : List String) (st : RunState) :
    TraversalResult × Option GoErr :=
  match headerResult with
  | .error e => (emptyTraversalResult, some (.combine .malformedCar e))
  | .ok hdr =>
    if hdr.version = 1 ∨ (hdr.version = 2 ∧ cfg.AllowCARv2) then
      if cfg.CheckRootsMismatch ∧ ¬(hdr.roots = [cfg.Root]) then
        (emptyTraversalResult, some .badRoots)
      else VerifyBlockStream cfg walk lastPath st
    else (emptyTraversalResult, some .badVersion)

/-- C2: for a traversal the verifier completes successfully (a well-formed
CAR matching the request), the returned counters satisfy
`BlocksIn = BlocksOut` iff no load during the walk revisited a seen CID,
or the two duplicate policies agree. -/
theorem verify_blocksInOut_iff (cfg : Config) (walk : List Cid)
    (lastPath : List String) (stream : List (Except GoErr Block))
    (store : List (Cid × List Nat)) (res : TraversalResult)
    (h : VerifyBlockStream cfg walk lastPath ⟨[], stream, store, ⟨0, 0, 0, 0⟩⟩
          = (res, none)) :
    res.BlocksIn = res.BlocksOut
      ↔ (dupCount [] walk = 0
          ∨ cfg.ExpectDuplicatesIn = cfg.WriteDuplicatesOut) := by
  unfold VerifyBlockStream at h
  split at h
  · cases h
  · rename_i st' hrun
    split at h
    · cases h
    · cases h
    · injection h with h1 h2
      subst h1
      obtain ⟨hin, hout⟩ :=
        runTraversal_counts cfg walk ⟨[], stream, store, ⟨0, 0, 0, 0⟩⟩ st' hrun
      simp only at hin hout
      by_cases he : cfg.ExpectDuplicatesIn <;> by_cases hw : cfg.WriteDuplicatesOut <;>
        simp [he, hw] at hin hout ⊢ <;> omega

/-- Witness for C2: a one-block walk verifies with one block in and one
block out, and no duplicates. -/
theorem verify_blocksInOut_iff_witness :
    (2 : Nat) = 2
      ↔ (dupCount [] [⟨0x71, [1], "c1"⟩, ⟨0x71, [1], "c1"⟩] = 0
          ∨ (true : Bool) = true) :=
  verify_blocksInOut_iff
    ⟨⟨0x71, [1], "c1"⟩, false, .map [], false, true, true, 0⟩
    [⟨0x71, [1], "c1"⟩, ⟨0x71, [1], "c1"⟩] []
    [.ok ⟨⟨0x71, [1], "c1"⟩, [7]⟩, .ok ⟨⟨0x71, [1], "c1"⟩, [7]⟩] []
    ⟨[], 2, 2, 2, 2⟩ (by decide)

/-- C9: whenever `VerifyCar` or `VerifyBlockStream` pairs its result with
a non-nil error, the result is the zero `TraversalResult`: all four
counters zero and an empty last path. -/
theorem verify_error_zero_result :
    (∀ (cfg : Config) (headerResult : Except GoErr CarHeader) (walk : List Cid)
        (lastPath : List String) (st : RunState) (res : TraversalResult) (e : GoErr),
      VerifyCar cfg headerResult walk lastPath st = (res, some e) →
        res = emptyTraversalResult)
    ∧ (∀ (cfg : Config) (walk : List Cid) (lastPath : List String) (st : RunState)
        (res : TraversalResult) (e : GoErr),
      VerifyBlockStream cfg walk lastPath st = (res, some e) →
        res = emptyTraversalResult) := by
  have hbs : ∀ (cfg : Config) (walk : List Cid) (lastPath : List String) (st : RunState)
      (res : TraversalResult) (e : GoErr),
      VerifyBlockStream cfg walk lastPath st = (res, some e) →
        res = emptyTraversalResult := by
    intro cfg walk lastPath st res e h
    unfold VerifyBlockStream at h
    split at h
    · injection h with h1 h2; exact h1.symm
    · split at h
      · injection h with h1 h2; exact h1.symm
      · injection h with h1 h2; exact h1.symm
      · injection h with h1 h2; cases h2
  refine ⟨?_, hbs⟩
  intro cfg headerResult walk lastPath st res e h
  unfold VerifyCar at h
  split at h
  · injection h with h1 h2; exact h1.symm
  · split at h
    · split at h
      · injection h with h1 h2; exact h1.symm
      · exact hbs cfg walk lastPath st res e h
    · injection h with h1 h2; exact h1.symm

/-- Witness for C9: a version-3 header is rejected with `ErrBadVersion`
and the zero result. -/
theorem verify_error_zero_result_witness :
    (emptyTraversalResult : TraversalResult) = emptyTraversalResult :=
  verify_error_zero_result.1
    ⟨⟨0x71, [1], "c1"⟩, false, .map [], false, false, false, 0⟩
    (.ok ⟨3, []⟩) [] [] ⟨[], [], [], ⟨0, 0, 0, 0⟩⟩
    emptyTraversalResult .badVersion (by decide)

/-! ## The error-capturing reader (`readopener.go`)

`ErrorCapturingReader` wraps a block store's read opener; its Go body is

  r, err := ecr.sro(lc, l)
  if err != nil { ecr.Error = err }
  return r, err

so the `Error` cell is overwritten by every failing load. The wrapped
opener is a pure function from links to a (reader, error) pair, the cell
is threaded as explicit state, and a traversal is the sequence of loads it
makes. -/

/-- One call of `ErrorCapturingReader.StorageReadOpener`: the wrapped
opener's result is passed through unchanged, and the cell is set to the
returned error when there is one. -/
def ecrReadOpen {ρ ε : Type} (sro : Nat → ρ × Option ε) (cell : Option ε)
    (l : Nat) : (ρ × Option ε) × Option ε :=
  let r := sro l
  (r, match r.2 with
      | some e => some e
      | none => cell)

/-- The cell's value after a traversal making the given loads. -/
def ecrRun {ρ ε : Type} (sro : Nat → ρ × Option ε) (cell : Option ε) :
    List Nat → Option ε
  | [] => cell
  | l :: rest => ecrRun sro (ecrReadOpen sro cell l).2 rest

/-- The first error among the loads' results, in load order. -/
def firstLoadError {ρ ε : Type} (sro : Nat → ρ × Option ε) (loads : List Nat) :
    Option ε :=
  (loads.filterMap (fun l => (sro l).2)).head?

/-- The last error among the loads' results, in load order. -/
def lastLoadError {ρ ε : Type} (sro : Nat → ρ × Option ε) (loads : List Nat) :
    Option ε :=
  (loads.filterMap (fun l => (sro l).2)).getLast?

/-- C8 counterexample: with two loads failing with the distinct errors `1`
then `2`, the cell ends holding `2` — the last error — while the first
error of the traversal is `1`; so the cell does not hold the first error. -/
theorem ecr_first_error_counterexample :
    ecrRun (fun l => ((), some l)) none [1, 2] = some 2
    ∧ firstLoadError (fun l => ((), some l)) [1, 2] = some 1
    ∧ ecrRun (fun l => ((), some l)) none [1, 2]
        ≠ firstLoadError (fun l => ((), some l)) [1, 2] := by
  refine ⟨rfl, rfl, ?_⟩
  decide

/-- The cell after a traversal, for any initial cell value: the last load
error when there is one, the initial value otherwise. -/
theorem ecrRun_eq_lastLoadError {ρ ε : Type} (sro : Nat → ρ × Option ε) :
    ∀ (loads : List Nat) (cell : Option ε),
      ecrRun sro cell loads =
        (match lastLoadError sro loads with
        | some e => some e
        | none => cell) := by
  intro loads
  induction loads with
  | nil => intro cell; rfl
  | cons l rest ih =>
    intro cell
    show ecrRun sro (ecrReadOpen sro cell l).2 rest = _
    rw [ih]
    rcases hl : (sro l).2 with _ | e'
    · have hcell : (ecrReadOpen sro cell l).2 = cell := by simp [ecrReadOpen, hl]
      have hsame : lastLoadError sro (l :: rest) = lastLoadError sro rest := by
        unfold lastLoadError
        simp [List.filterMap_cons, hl]
      rw [hcell, hsame]
    · have hcell : (ecrReadOpen sro cell l).2 = some e' := by simp [ecrReadOpen, hl]
      rw [hcell]
      have hfm : (l :: rest).filterMap (fun x => (sro x).2)
          = e' :: rest.filterMap (fun x => (sro x).2) := by
        simp [List.filterMap_cons, hl]
      unfold lastLoadError
      rw [hfm]
      rcases hys : rest.filterMap (fun x => (sro x).2) with _ | ⟨y, ys⟩
      · rfl
      · rw [List.getLast?_cons_cons]
        rcases hz : (y :: ys).getLast? with _ | z
        · exact absurd (List.getLast?_eq_none_iff.mp hz) (by simp)
        · rfl

/-- C8 (amended): the shared cell holds the last error returned by any
load during the traversal (and stays empty when no load fails), and every
load's result is passed through to the caller unchanged. -/
theorem ecr_last_error {ρ ε : Type} (sro : Nat → ρ × Option ε) :
    (∀ loads : List Nat,
      ecrRun sro none loads =
        (match lastLoadError sro loads with
        | some e => some e
        | none => none))
    ∧ (∀ (cell : Option ε) (l : Nat), (ecrReadOpen sro cell l).1 = sro l) :=
  ⟨fun loads => ecrRun_eq_lastLoadError sro loads none, fun _ _ => rfl⟩

/-! ## Content negotiation (`constants.go`, `parse.go`)

`ContentType.Quality` is a `float32` in `[0, 1]` in Go; only its ordering
is relevant to `CheckFormat` (via `ParseAccept`'s sort), so it is modelled
as a rational. -/

def MimeTypeCar : String := "application/vnd.ipld.car"
def MimeTypeRaw : String := "application/vnd.ipld.raw"
def FormatParameterCar : String := "car"
def FormatParameterRaw : String := "raw"
def ContentTypeOrderDfs : String := "dfs"
def DefaultIncludeDupes : Bool := true

/-- `ContentType` from `constants.go`. -/
structure ContentType where
  MimeType : String
  Order : String
  Duplicates : Bool
  Quality : ℚ
deriving DecidableEq

def ContentType.IsRaw (ct : ContentType) : Bool := ct.MimeType = MimeTypeRaw

/-- `ContentType.IsCar` from `constants.go` (wildcard mimes deliberately
count as CAR-capable). -/
def ContentType.IsCar (ct : ContentType) : Bool :=
  ct.MimeType = MimeTypeCar || ct.MimeType = "application/*" || ct.MimeType = "*/*"

def ContentType.WithMimeType (ct : ContentType) (mime : String) : ContentType :=
  { ct with MimeType := mime }

def DefaultContentType : ContentType :=
  ⟨MimeTypeCar, ContentTypeOrderDfs, DefaultIncludeDupes, 1⟩

/-- The wildcard test `CheckFormat` applies to the highest-priority
accepted entry. -/
def hasWildcardTop (accepts : List ContentType) : Bool :=
  match accepts with
  | a :: _ => a.MimeType = "*/*" || a.MimeType = "application/*"
  | [] => false

/-- `CheckFormat` from `parse.go`, after the two HTTP reads: `format` is
the `format` query parameter, `acceptPresent` whether the `Accept` header
is non-empty, and `accepts` the quality-sorted result of `ParseAccept` on
it (consulted only when the header is present). The body mirrors the Go
control flow: validate `format`; an Accept header that parses to nothing
falls back to `format` (or errors); a non-wildcard Accept takes
precedence; otherwise `format=car` promotes the first CAR-compatible
accept (or the default CAR content type) and `format=raw` yields the
default with the raw mime; remaining wildcard accepts are returned as-is;
with nothing left, error. -/
def CheckFormat (format : String) (acceptPresent : Bool)
    (accepts : List ContentType) : Except String (List ContentType) :=
  if ¬(format = "" ∨ format = FormatParameterCar ∨ format = FormatParameterRaw) then
    .error "invalid format parameter"
  else
    let accepts := if acceptPresent then accepts else []
    if acceptPresent ∧ accepts = [] then
      if format = FormatParameterCar then
        .ok [DefaultContentType.WithMimeType MimeTypeCar]
      else if format = FormatParameterRaw then
        .ok [DefaultContentType.WithMimeType MimeTypeRaw]
      else .error "invalid Accept header"
    else
      if accepts ≠ [] ∧ ¬hasWildcardTop accepts then .ok accepts
      else if format = FormatParameterCar then
        match accepts.find? (fun a => a.IsCar) with
        | some a => .ok [a.WithMimeType MimeTypeCar]
        | none => .ok [DefaultContentType.WithMimeType MimeTypeCar]
      else if format = FormatParameterRaw then
        .ok [DefaultContentType.WithMimeType MimeTypeRaw]
      else if accepts ≠ [] then .ok accepts
      else .error "neither a valid Accept header nor format parameter were provided"

/-- C6: with both an Accept header (parsing to a non-empty quality-sorted
list headed by `a`) and a `format` parameter present, the Accept header
wins unless its top entry is a pure wildcard mime, in which case `format`
decides: `raw` yields the default content type with the raw mime, `car`
promotes the (CAR-compatible) wildcard top accept to the CAR mime. -/
theorem checkFormat_precedence (format : String) (a : ContentType)
    (rest : List ContentType)
    (_hsorted : List.Chain' (fun x y => y.Quality ≤ x.Quality) (a :: rest))
    (hfmt : format = FormatParameterCar ∨ format = FormatParameterRaw) :
    (¬(a.MimeType = "*/*" ∨ a.MimeType = "application/*") →
      CheckFormat format true (a :: rest) = .ok (a :: rest))
    ∧ ((a.MimeType = "*/*" ∨ a.MimeType = "application/*") →
        (format = FormatParameterRaw →
          CheckFormat format true (a :: rest)
            = .ok [DefaultContentType.WithMimeType MimeTypeRaw])
        ∧ (format = FormatParameterCar →
          CheckFormat format true (a :: rest)
            = .ok [a.WithMimeType MimeTypeCar])) := by
  have hvalid : ¬¬(format = "" ∨ format = FormatParameterCar ∨ format = FormatParameterRaw) := by
    rcases hfmt with h | h <;> simp [h]
  constructor
  · intro hnw
    have hwild : hasWildcardTop (a :: rest) = false := by
      simp only [hasWildcardTop, Bool.or_eq_false_iff, decide_eq_false_iff_not]
      exact ⟨fun h => hnw (Or.inl h), fun h => hnw (Or.inr h)⟩
    unfold CheckFormat
    rw [if_neg hvalid]
    simp [hwild]
  · intro hw
    have hwild : hasWildcardTop (a :: rest) = true := by
      simp only [hasWildcardTop, Bool.or_eq_true, decide_eq_true_eq]
      exact hw
    constructor
    · intro hraw
      subst hraw
      unfold CheckFormat
      rw [if_neg hvalid]
      simp [hwild, FormatParameterRaw, FormatParameterCar]
    · intro hcar
      subst hcar
      have hcarA : a.IsCar = true := by
        simp only [ContentType.IsCar, Bool.or_eq_true, decide_eq_true_eq]
        rcases hw with h | h
        · exact Or.inr h
        · exact Or.inl (Or.inr h)
      unfold CheckFormat
      rw [if_neg hvalid]
      simp [hwild, List.find?_cons, hcarA]

/-- Witness for C6: a top wildcard `*/*` accept with `format=car` is
promoted to the CAR mime. -/
theorem checkFormat_precedence_witness :
    CheckFormat FormatParameterCar true [⟨"*/*", ContentTypeOrderDfs, true, 1⟩]
      = .ok [ContentType.WithMimeType ⟨"*/*", ContentTypeOrderDfs, true, 1⟩ MimeTypeCar] :=
  ((checkFormat_precedence FormatParameterCar ⟨"*/*", ContentTypeOrderDfs, true, 1⟩ []
    (by simp) (Or.inl rfl)).2 (Or.inl rfl)).2 rfl

/-! ## xxhash64 (`github.com/cespare/xxhash`)

The 64-bit xxHash algorithm over byte lists, with all `uint64` arithmetic
carried out on `Nat` modulo `2^64`. -/

def xxPrime1 : Nat := 11400714785074694791
def xxPrime2 : Nat := 14029467366897019727
def xxPrime3 : Nat := 1609587929392839161
def xxPrime4 : Nat := 9650029242287828579
def xxPrime5 : Nat := 2870177450012600261

def mask64 (x : Nat) : Nat := x % 2 ^ 64

/-- 64-bit rotate left (the argument is already below `2^64`). -/
def rotl64 (x r : Nat) : Nat := mask64 (x <<< r) ||| (x >>> (64 - r))

/-- A little-endian unsigned integer from a byte list. -/
def leBytes (l : List Nat) : Nat := l.foldr (fun b acc => b + 256 * acc) 0

def leU64 (l : List Nat) : Nat := leBytes (l.take 8)
def leU32 (l : List Nat) : Nat := leBytes (l.take 4)

/-- `round`: `acc += input * prime2; acc = rol31(acc); acc *= prime1`. -/
def xxRound (acc input : Nat) : Nat :=
  mask64 (rotl64 (mask64 (acc + input * xxPrime2)) 31 * xxPrime1)

/-- `mergeRound`: `h ^= round(0, v); h = h*prime1 + prime4`. -/
def xxMergeRound (h v : Nat) : Nat :=
  mask64 ((h ^^^ xxRound 0 v) * xxPrime1 + xxPrime4)

/-- The 32-byte block loop (fuel-structured; the fuel is the input length,
which bounds the number of iterations). -/
def xxRounds : Nat → Nat × Nat × Nat × Nat → List Nat →
    (Nat × Nat × Nat × Nat) × List Nat
  | 0, vs, input => (vs, input)
  | fuel + 1, (v1, v2, v3, v4), input =>
    if 32 ≤ input.length then
      xxRounds fuel
        (xxRound v1 (leU64 input), xxRound v2 (leU64 (input.drop 8)),
          xxRound v3 (leU64 (input.drop 16)), xxRound v4 (leU64 (input.drop 24)))
        (input.drop 32)
    else ((v1, v2, v3, v4), input)

/-- The 8-byte tail loop: `h ^= round(0, u64(b)); h = rol27(h)*prime1 + prime4`. -/
def xxTail8 : Nat → Nat → List Nat → Nat × List Nat
  | 0, h, input => (h, input)
  | fuel + 1, h, input =>
    if 8 ≤ input.length then
      xxTail8 fuel
        (mask64 (rotl64 (h ^^^ xxRound 0 (leU64 input)) 27 * xxPrime1 + xxPrime4))
        (input.drop 8)
    else (h, input)

/-- The 4-byte tail step (it can run at most once after the 8-byte loop):
`h ^= u32(b)*prime1; h = rol23(h)*prime2 + prime3`. -/
def xxTail4 (h : Nat) (input : List Nat) : Nat × List Nat :=
  if 4 ≤ input.length then
    (mask64 (rotl64 (h ^^^ mask64 (leU32 input * xxPrime1)) 23 * xxPrime2 + xxPrime3),
      input.drop 4)
  else (h, input)

/-- The byte tail loop: `h ^= b*prime5; h = rol11(h)*prime1`. -/
def xxTail1 : Nat → List Nat → Nat
  | h, [] => h
  | h, b :: rest => xxTail1 (mask64 (rotl64 (h ^^^ mask64 (b * xxPrime5)) 11 * xxPrime1)) rest

/-- The final avalanche. -/
def xxAvalanche (h : Nat) : Nat :=
  let h1 := h ^^^ (h >>> 33)
  let h2 := mask64 (h1 * xxPrime2)
  let h3 := h2 ^^^ (h2 >>> 29)
  let h4 := mask64 (h3 * xxPrime3)
  h4 ^^^ (h4 >>> 32)

/-- xxHash64 of a byte list with the given seed. -/
def xxh64 (seed : Nat) (input : List Nat) : Nat :=
  let n := input.length
  let hrest :=
    if 32 ≤ n then
      let vsrest :=
        xxRounds n
          (mask64 (seed + xxPrime1 + xxPrime2), mask64 (seed + xxPrime2), seed,
            mask64 (seed + 2 ^ 64 - xxPrime1)) input
      match vsrest with
      | ((v1, v2, v3, v4), rest) =>
        let h0 := mask64 (rotl64 v1 1 + rotl64 v2 7 + rotl64 v3 12 + rotl64 v4 18)
        (xxMergeRound (xxMergeRound (xxMergeRound (xxMergeRound h0 v1) v2) v3) v4, rest)
    else (mask64 (seed + xxPrime5), input)
  match hrest with
  | (h, rest) =>
    let h1 := mask64 (h + n)
    match xxTail8 rest.length h1 rest with
    | (h2, rest2) =>
      match xxTail4 h2 rest2 with
      | (h3, rest3) => xxAvalanche (xxTail1 h3 rest3)

/-! ## Base-32 formatting (`strconv.FormatUint(v, 32)`) -/

/-- A base-32 digit character: `0-9` then `a-v`. -/
def b32Digit (d : Nat) : Char :=
  if d < 10 then Char.ofNat (48 + d) else Char.ofNat (87 + d)

def goFormatUintBase32Aux : Nat → Nat → List Char → List Char
  | 0, _, acc => acc
  | fuel + 1, v, acc =>
    if v < 32 then b32Digit v :: acc
    else goFormatUintBase32Aux fuel (v / 32) (b32Digit (v % 32) :: acc)

/-- `strconv.FormatUint(v, 32)` (64 fuel covers any `uint64`). -/
def goFormatUintBase32 (v : Nat) : String := ⟨goFormatUintBase32Aux 64 v []⟩

/-! ## Etag and URL path synthesis (`types.go`) -/

/-- The bytes of a string (ASCII data throughout this library, where
`Char.toNat` coincides with the UTF-8 bytes Go hashes). -/
def strBytes (s : String) : List Nat := s.data.map Char.toNat

/-- The byte sequence `Request.Etag` feeds to the hash, as the sequence of
`h.Write` calls in `types.go` produces it: the `/ipfs/<root>` walk path,
`/`-joined cleaned path when non-empty, then NUL-prefixed `scope=`,
`range=` (from, `,`-separated inclusive to), `order=` and `dups=y`
segments, each only when non-default. -/
def etagWriteBytes (r : Request) (order : String) : List Nat :=
  strBytes "/ipfs/" ++ strBytes r.Root.str
  ++ (if r.Path ≠ "" then strBytes "/" ++ strBytes (parsePathString r.Path) else [])
  ++ (if r.Scope ≠ DagScopeAll then strBytes "\x00scope=" ++ strBytes r.Scope else [])
  ++ (match r.Bytes with
      | some br =>
        if ¬ByteRange.IsDefault (some br) then
          strBytes "\x00range=" ++ (goFormatInt br.From).map Char.toNat
          ++ (match br.To with
              | some t => strBytes "," ++ (goFormatInt t).map Char.toNat
              | none => [])
        else []
      | none => [])
  ++ (if order ≠ "" ∧ order ≠ "dfs" then strBytes "\x00order=" ++ strBytes order else [])
  ++ (if r.Duplicates then strBytes "\x00dups=y" else [])

/-- `Request.Etag(order)` from `types.go`: the weak Etag
`W/"<root>.car.<suffix>"` with the base-32 xxhash64 suffix. -/
def Request.Etag (r : Request) (order : String) : String :=
  "W/\"" ++ r.Root.str ++ ".car." ++ goFormatUintBase32 (xxh64 0 (etagWriteBytes r order)) ++ "\""

/-- Whether `net/url.PathEscape` escapes a character
(`shouldEscape(c, encodePathSegment)`; ASCII fidelity suffices here). -/
def shouldEscapeInPathSegment (c : Char) : Bool :=
  if ('a' ≤ c ∧ c ≤ 'z') ∨ ('A' ≤ c ∧ c ≤ 'Z') ∨ ('0' ≤ c ∧ c ≤ '9') then false
  else if c = '-' ∨ c = '_' ∨ c = '.' ∨ c = '~' then false
  else if c = '$' ∨ c = '&' ∨ c = '+' ∨ c = ':' ∨ c = '=' ∨ c = '@' then false
  else true

/-- An uppercase hex digit. -/
def hexDigitUpper (d : Nat) : Char :=
  if d < 10 then Char.ofNat (48 + d) else Char.ofNat (55 + d)

/-- A percent-escaped byte. -/
def escapeByte (b : Nat) : List Char :=
  ['%', hexDigitUpper (b / 16), hexDigitUpper (b % 16)]

/-- `net/url.PathEscape` on one path segment. -/
def urlPathEscape (seg : String) : String :=
  ⟨seg.data.foldr
    (fun c acc => (if shouldEscapeInPathSegment c then escapeByte c.toNat else [c]) ++ acc) []⟩

/-- `PathEscape` from `types.go`: clean the IPLD path and URL-escape each
segment, prefixing each with `/`. -/
def PathEscape (path : String) : String :=
  if path = "" then path
  else String.join ((pathSegments path).map (fun ps => "/" ++ urlPathEscape ps))

/-- `Request.UrlPath` from `types.go` (the Go error return is always nil). -/
def Request.UrlPath (r : Request) : String :=
  PathEscape r.Path ++ "?dag-scope="
    ++ (if r.Scope = "" then DagScopeAll else r.Scope)
    ++ (if ¬ByteRange.IsDefault r.Bytes then "&entity-bytes=" ++ ByteRange.toGoString r.Bytes
        else "")

/-- The exact byte concatenation the specification prescribes for the Etag
hash (§4.3, items 1–6), written from the spec's words: `"/ipfs/" + root`;
`"/" + canonical_path` when the path is non-empty; then NUL-prefixed
`scope=`, `range=` (`from`, then `"," + to` when present), `order=` and
`dups=y` segments, each only when non-default. -/
def etagSpecPayload (r : Request) (order : String) : List Nat :=
  strBytes "/ipfs/" ++ strBytes r.Root.str
  ++ (if r.Path ≠ "" then strBytes "/" ++ strBytes (parsePathString r.Path) else [])
  ++ (if r.Scope ≠ DagScopeAll then strBytes "\x00scope=" ++ strBytes r.Scope else [])
  ++ (if ¬ByteRange.IsDefault r.Bytes then
        strBytes "\x00range="
        ++ (goFormatInt (match r.Bytes with | some br => br.From | none => 0)).map Char.toNat
        ++ (match r.Bytes with
            | some br =>
              match br.To with
              | some t => strBytes "," ++ (goFormatInt t).map Char.toNat
              | none => []
            | none => [])
      else [])
  ++ (if order ≠ "" ∧ order ≠ "dfs" then strBytes "\x00order=" ++ strBytes order else [])
  ++ (if r.Duplicates then strBytes "\x00dups=y" else [])

/-- C4: `etag(order)` is exactly `W/"<root>.car.<suffix>"` with `suffix`
the base-32 lowercase xxhash64 of the spec's byte concatenation; and at
`Request{root: testV0, scope: All}` with order `dfs` it equals the pinned
fixture. -/
theorem etag_form_and_fixture :
    (∀ (r : Request) (order : String),
      Request.Etag r order
        = "W/\"" ++ r.Root.str ++ ".car."
          ++ goFormatUintBase32 (xxh64 0 (etagSpecPayload r order)) ++ "\"")
    ∧ Request.Etag
        ⟨⟨0x70, [], "QmVXsSVjwxMsCwKRCUxEkGb4f4B98gXVy3ih3v4otvcURK"⟩, "", DagScopeAll,
          none, false⟩ "dfs"
      = "W/\"QmVXsSVjwxMsCwKRCUxEkGb4f4B98gXVy3ih3v4otvcURK.car.8it8cu7ifb381\"" := by
  constructor
  · intro r order
    have hpayload : etagWriteBytes r order = etagSpecPayload r order := by
      rcases hb : r.Bytes with _ | br
      · simp [etagWriteBytes, etagSpecPayload, hb, ByteRange.IsDefault]
      · by_cases hd : ByteRange.IsDefault (some br) <;>
          simp [etagWriteBytes, etagSpecPayload, hb, hd]
    rw [Request.Etag, hpayload]
  · decide

/-- C10: a nil `*ByteRange` behaves as the default range everywhere:
`IsDefault` is true, `String` is `"0:*"`, and `UrlPath`, `Etag` and
`Selector` all accept an absent range — `UrlPath` omits `entity-bytes`,
and `Etag`/`Selector` coincide with the explicit default range `0:*`. -/
theorem nil_byteRange_safe :
    (ByteRange.IsDefault none = true)
    ∧ (ByteRange.toGoString none = "0:*")
    ∧ (∀ r : Request, r.Bytes = none →
        Request.UrlPath r
          = PathEscape r.Path ++ "?dag-scope="
            ++ (if r.Scope = "" then DagScopeAll else r.Scope))
    ∧ (∀ (r : Request) (order : String), r.Bytes = none →
        Request.Etag r order = Request.Etag { r with Bytes := some ⟨0, none⟩ } order)
    ∧ (∀ r : Request, r.Bytes = none →
        Request.Selector r = Request.Selector { r with Bytes := some ⟨0, none⟩ }) := by
  refine ⟨rfl, rfl, fun r h => ?_, fun r order h => ?_, fun r h => ?_⟩
  · simp [Request.UrlPath, h, ByteRange.IsDefault]
  · have : etagWriteBytes r order
        = etagWriteBytes { r with Bytes := some ⟨0, none⟩ } order := by
      simp [etagWriteBytes, h, ByteRange.IsDefault]
    rw [Request.Etag, Request.Etag, this]
  · simp [Request.Selector, h, ByteRange.IsDefault]

/-- Witness for C10 at a concrete request with an absent byte range. -/
theorem nil_byteRange_safe_witness :
    Request.UrlPath ⟨⟨0x70, [], "QmTest"⟩, "", DagScopeEntity, none, false⟩
      = PathEscape "" ++ "?dag-scope="
        ++ (if (DagScopeEntity : String) = "" then DagScopeAll else DagScopeEntity) :=
  nil_byteRange_safe.2.2.1 ⟨⟨0x70, [], "QmTest"⟩, "", DagScopeEntity, none, false⟩ rfl

end TrustlessUtils
